import Mathlib

/-!
Verification of the Selafin mesh time-series store
(`ogr/ogrsf_frmts/selafin/ogrselafinlayer.cpp`).

The layer code is embedded shallowly: the `Selafin::Header` object becomes
the `Header` structure, the on-disk file becomes the `SelFile` structure
(record-level view of the binary format), and each `OGRSelafinLayer`
method becomes a Lean function on these structures.  Double-precision
values are modelled as exact rationals (`ℚ`); floating-point rounding is
abstracted away.  Collaborators that live outside the sampled source
(`Selafin::Header` methods and the framed-record codec) are modelled from
the specification and marked `Modelled from the spec:` in their doc
comments.
-/

namespace Selafin

/-- Result codes `OGRERR_NONE` / `OGRERR_FAILURE` used by the layer. -/
inductive OGRErr where
  | none
  | failure
deriving DecidableEq, Repr

/-- The two views over one mesh store (`SelafinTypeDef` in the source). -/
inductive SelafinTypeDef where
  | points
  | elements
deriving DecidableEq, Repr

/-- Geometries relevant to the layer: `wkbPoint` and `wkbPolygon`
(a polygon is kept as its exterior ring's point list). -/
inductive Geometry where
  | point (x y : ℚ)
  | polygon (ring : List (ℚ × ℚ))
deriving DecidableEq, Repr

/-- One time-step record of the file: a timestamp followed by one
per-point array per variable (`arrays` indexed by variable, each entry a
list of per-point values). -/
structure TimeStep where
  date : ℚ
  arrays : List (List ℚ)
deriving DecidableEq, Repr, Inhabited

/-- The in-memory `Selafin::Header` state shared by both views: counts,
variable names, 1-based connectivity table, true point coordinates
(`paadfCoords`, origin already added), the origin, and whether a start
date block is present. -/
structure Header where
  nPoints : Nat
  nElements : Nat
  nPointsPerElement : Nat
  nVar : Nat
  nSteps : Nat
  papszVariables : List String
  panConnectivity : List Nat
  coordX : List ℚ
  coordY : List ℚ
  originX : ℚ
  originY : ℚ
  hasStartDate : Bool
deriving DecidableEq, Repr

/-- Modelled from the spec: the on-disk file, decoded at record level
(fixed preamble with title and 32-character variable name slots, optional
start date, connectivity table, the two coordinate arrays stored as
offsets from the origin, then the time-step records). -/
structure SelFile where
  title : String
  varNames : List String
  hasStartDate : Bool
  connectivity : List Nat
  fileCoordX : List ℚ
  fileCoordY : List ℚ
  steps : List TimeStep
deriving DecidableEq, Repr

/-- Well-formedness of a header together with the decoded time-step
section (the invariants of spec section 3): list lengths agree with the
counts and connectivity entries are 1-based point indices. -/
def Header.Valid (h : Header) (steps : List TimeStep) : Prop :=
  h.papszVariables.length = h.nVar ∧
  h.panConnectivity.length = h.nElements * h.nPointsPerElement ∧
  (∀ c ∈ h.panConnectivity, 1 ≤ c ∧ c ≤ h.nPoints) ∧
  h.coordX.length = h.nPoints ∧
  h.coordY.length = h.nPoints ∧
  steps.length = h.nSteps ∧
  (∀ st ∈ steps, st.arrays.length = h.nVar ∧ ∀ a ∈ st.arrays, a.length = h.nPoints)

instance (h : Header) (steps : List TimeStep) : Decidable (h.Valid steps) := by
  unfold Header.Valid
  infer_instance

/-- Modelled from the spec: seeking to `getPosition(step, point, var)` and
reading one framed float returns the stored per-point value of variable
`v` at point `p` for time step `s`; a read outside the file fails. -/
def readPointVar (steps : List TimeStep) (s v p : Nat) : Option ℚ :=
  (steps.get? s).bind fun st => (st.arrays.get? v).bind fun a => a.get? p

/-- An ephemeral feature as built by `GetFeature`: its FID, geometry, and
one optional double per variable (`none` when the field was left unset). -/
structure Feature where
  fid : Int
  geom : Geometry
  fields : List (Option ℚ)
deriving DecidableEq, Repr

/-- Method `OGRPolygon::closeRings`: appends the first vertex when the ring is
not already closed (external collaborator, modelled from its interface). -/
def closeRing (ring : List (ℚ × ℚ)) : List (ℚ × ℚ) :=
  match ring with
  | [] => []
  | p :: _ => if ring.getLast? = some p then ring else ring ++ [p]

/-- The 0-based vertex point indices of element `f`: connectivity entries
`f * nPointsPerElement + j` minus one. -/
def elemVerts (h : Header) (f : Nat) : List Nat :=
  (List.range h.nPointsPerElement).map
    (fun j => h.panConnectivity.getD (f * h.nPointsPerElement + j) 0 - 1)

/-- Method `OGRSelafinLayer::GetFeature` (lines 178-245).  Negative FIDs and FIDs
at or beyond the view's count yield no feature.  The point view returns
the point geometry and one framed-float read per variable (a failed read
leaves the field unset).  The element view resolves the connectivity row
to a closed ring and sets each field to the sum of the vertices' values
divided by `nPointsPerElement` (fields stay unset when that count is 0).
Allocation of the temporary sum buffer is assumed to succeed. -/
def getFeature (h : Header) (steps : List TimeStep) (eType : SelafinTypeDef)
    (nStepNumber : Nat) (nFID : Int) : Option Feature :=
  if nFID < 0 then Option.none
  else
    match eType with
    | SelafinTypeDef.points =>
      if (h.nPoints : Int) ≤ nFID then Option.none
      else
        let f := nFID.toNat
        Option.some
          { fid := nFID,
            geom := Geometry.point (h.coordX.getD f 0) (h.coordY.getD f 0),
            fields := (List.range h.nVar).map
              (fun i => readPointVar steps nStepNumber i f) }
    | SelafinTypeDef.elements =>
      if (h.nElements : Int) ≤ nFID then Option.none
      else
        let f := nFID.toNat
        let verts := elemVerts h f
        let ring := verts.map (fun p => (h.coordX.getD p 0, h.coordY.getD p 0))
        let sums := (List.range h.nVar).map
          (fun i => (verts.map
            (fun p => (readPointVar steps nStepNumber i p).getD 0)).sum)
        Option.some
          { fid := nFID,
            geom := Geometry.polygon (closeRing ring),
            fields :=
              if h.nPointsPerElement = 0 then
                (List.range h.nVar).map (fun _ => Option.none)
              else
                sums.map (fun s => Option.some (s / (h.nPointsPerElement : ℚ))) }

/-- The row count of a view: `nPoints` for the point view, `nElements`
for the element view. -/
def viewCount (h : Header) (eType : SelafinTypeDef) : Nat :=
  match eType with
  | SelafinTypeDef.points => h.nPoints
  | SelafinTypeDef.elements => h.nElements

/-- The arithmetic mean of a list of rationals. -/
def meanQ (l : List ℚ) : ℚ := l.sum / (l.length : ℚ)

/-- Concrete fixture: a mesh with three points, one triangular element
and one variable sampled at one time step. -/
def exHeader : Header where
  nPoints := 3
  nElements := 1
  nPointsPerElement := 3
  nVar := 1
  nSteps := 1
  papszVariables := ["H"]
  panConnectivity := [1, 2, 3]
  coordX := [0, 10, 0]
  coordY := [0, 0, 10]
  originX := 0
  originY := 0
  hasStartDate := false

/-- Concrete fixture: the time-step section of `exHeader`, the triangle's
vertices carrying the values 1.0, 2.0 and 6.0 at variable "H". -/
def exSteps : List TimeStep := [{ date := 0, arrays := [[1, 2, 6]] }]

/-- The per-point values of variable `i` at the vertices of element `f`
for time step `s`, read straight from the decoded file contents. -/
def elemVertexVals (h : Header) (steps : List TimeStep) (s f i : Nat) : List ℚ :=
  (elemVerts h f).map
    (fun p => ((steps.getD s default).arrays.getD i []).getD p 0)

/-- Method `OGRSelafinLayer::SetNextByIndex` (lines 125-132): the index is
validated against `nPoints` on both views (the method never looks at the
view type), and on success the cursor is placed just before it. -/
def setNextByIndex (h : Header) (_eType : SelafinTypeDef)
    (nCurrentId nIndex : Int) : OGRErr × Int :=
  if nIndex < 0 ∨ (h.nPoints : Int) ≤ nIndex then (OGRErr.failure, nCurrentId)
  else (OGRErr.none, nIndex - 1)

/-- The dynamic geometry-type test `getGeometryType() == wkbPoint`
performed on a feature's (possibly missing) geometry. -/
def isPointGeom : Option Geometry → Bool
  | Option.some (Geometry.point _ _) => true
  | _ => false

/-- The per-point field writes of the point-view `ISetFeature`: for each
variable `i < nVar` the value is written at
`getPosition(nStepNumber, nFID, i)`, i.e. slot `pt` of array `i` of step
`stepNo` (arrays beyond `nVar` are untouched). -/
def writeStepFields (steps : List TimeStep) (stepNo pt nVar : Nat)
    (vals : List ℚ) : List TimeStep :=
  match steps.get? stepNo with
  | Option.none => steps
  | Option.some st =>
    let newArrays := st.arrays.mapIdx
      (fun i a => if i < nVar then a.set pt (vals.getD i 0) else a)
    steps.set stepNo { st with arrays := newArrays }

/-- Method `OGRSelafinLayer::ISetFeature`, point branch (lines 293-357): a
missing or non-point geometry fails before any state is touched;
otherwise the point's coordinates are updated in memory, written in
place into the file's coordinate arrays (as offsets from the origin),
and each field value is written at its per-step offset.  The FID is used
unchecked, as in the source; out-of-range writes are modelled as
no-ops. -/
def isetFeaturePoint (h : Header) (f : SelFile) (nStepNumber : Nat)
    (nFID : Int) (geom : Option Geometry) (vals : List ℚ) :
    OGRErr × Header × SelFile :=
  match geom with
  | Option.none => (OGRErr.failure, h, f)
  | Option.some (Geometry.polygon _) => (OGRErr.failure, h, f)
  | Option.some (Geometry.point x y) =>
    let p := nFID.toNat
    ( OGRErr.none,
      { h with coordX := h.coordX.set p x, coordY := h.coordY.set p y },
      { f with
          fileCoordX := f.fileCoordX.set p (x - h.originX),
          fileCoordY := f.fileCoordY.set p (y - h.originY),
          steps := writeStepFields f.steps nStepNumber p h.nVar vals } )

/-- Field types of `OGRFieldDefn` relevant here: only `OFTReal` is accepted by the
Selafin layer. -/
inductive OGRFieldType where
  | oftReal
  | oftInteger
  | oftString
deriving DecidableEq, Repr

/-- Truncation of a field name to the 32-character slot written by
`Selafin::write_string(fp, name, 32)` after the `strncpy` into the
33-byte buffer. -/
def trunc32 (s : String) : String := s.take 32

/-- Method `OGRSelafinLayer::AlterFieldDefn` (lines 957-990): a non-real field
type fails with no change; otherwise only the in-memory variable name
and the file's 32-byte name slot at offset `88 + 16 + 40 * iField` are
rewritten in place — no rebuild, and every other part of the file
(counts, connectivity, coordinates, time steps) is untouched. -/
def alterFieldDefn (h : Header) (f : SelFile) (iField : Nat)
    (newName : String) (newType : OGRFieldType) : OGRErr × Header × SelFile :=
  if newType ≠ OGRFieldType.oftReal then (OGRErr.failure, h, f)
  else
    ( OGRErr.none,
      { h with papszVariables := h.papszVariables.set iField (trunc32 newName) },
      { f with varNames := f.varNames.set iField (trunc32 newName) } )

/-- Squared Euclidean distance between `(x1, y1)` and `(x2, y2)`. -/
def sqDist (x1 y1 x2 y2 : ℚ) : ℚ := (x1 - x2) ^ 2 + (y1 - y2) ^ 2

/-- Modelled from the spec: the x-range scan of `Header::getBoundingBox`
(degenerate at 0 for an empty mesh). -/
def bboxMinX (h : Header) : ℚ := h.coordX.foldl min (h.coordX.headD 0)

/-- Modelled from the spec: the x-range scan of `Header::getBoundingBox`. -/
def bboxMaxX (h : Header) : ℚ := h.coordX.foldl max (h.coordX.headD 0)

/-- Width of the bounding box, `maxx - minx`. -/
def bboxWidth (h : Header) : ℚ := bboxMaxX h - bboxMinX h

/-- The squared deduplication threshold of element creation
(lines 560-566): `((maxx - minx) / sqrt(nPoints) / 1000)` squared, which
in exact arithmetic is `width^2 / (nPoints * 1000000)`. -/
def dedupMaxDistSq (h : Header) : ℚ :=
  bboxWidth h ^ 2 / ((h.nPoints : ℚ) * 1000000)

/-- Modelled from the spec: `Header::getClosestPoint` returns the first
point whose squared distance to the query is at most the threshold. -/
def getClosestPoint (h : Header) (x y dMax : ℚ) : Option Nat :=
  (List.range h.nPoints).find?
    (fun i => decide (sqDist (h.coordX.getD i 0) (h.coordY.getD i 0) x y ≤ dMax))

/-- Whether some existing point lies within the deduplication threshold
of the vertex `(x, y)`. -/
def nearExists (h : Header) (x y : ℚ) : Bool :=
  (List.range h.nPoints).any
    (fun i => decide (sqDist (h.coordX.getD i 0) (h.coordY.getD i 0) x y ≤
      dedupMaxDistSq h))

/-- Modelled from the spec: `Header::addPoint` appends the coordinates
and increments the point count. -/
def addPoint (h : Header) (x y : ℚ) : Header :=
  { h with nPoints := h.nPoints + 1,
           coordX := h.coordX ++ [x],
           coordY := h.coordY ++ [y] }

/-- The point-resolution loop of element creation (lines 573-580),
processing vertices left to right: a vertex already matched to a point
keeps that point's index; an unmatched vertex adds one point and takes
the new index (`nPoints - 1` right after the add). -/
def resolveVerts : Header → List ((ℚ × ℚ) × Option Nat) → Header × List Nat
  | h, [] => (h, [])
  | h, it :: rest =>
    match it.2 with
    | Option.some k =>
      let r := resolveVerts h rest
      (r.1, k :: r.2)
    | Option.none =>
      let r := resolveVerts (addPoint h it.1.1 it.1.2) rest
      (r.1, h.nPoints :: r.2)

/-- The in-memory phase of `OGRSelafinLayer::ICreateFeature` on the
element view (lines 500-595): the ring-size check (fixing
`nPointsPerElement` from the first element's ring), the deduplication
map computed against the pre-existing points when `nPoints > 0`, the
point-resolution loop, and the connectivity append (1-based indices).
Allocation is assumed to succeed. -/
def createElementMem (h : Header) (ring : List (ℚ × ℚ)) : Option Header :=
  (if h.nPointsPerElement = 0 then
    if ring.length < 4 then Option.none
    else Option.some { h with nPointsPerElement := ring.length - 1 }
  else if ring.length ≠ h.nPointsPerElement + 1 then Option.none
  else Option.some h).bind fun h1 =>
  let verts := ring.take h1.nPointsPerElement
  let anMap : List (Option Nat) :=
    if 0 < h1.nPoints then
      verts.map (fun v => getClosestPoint h1 v.1 v.2 (dedupMaxDistSq h1))
    else verts.map (fun _ => Option.none)
  let r := resolveVerts h1 (verts.zip anMap)
  Option.some
    { r.1 with
        nElements := r.1.nElements + 1,
        panConnectivity := r.1.panConnectivity ++ r.2.map (fun k => k + 1) }

/-- One time step of the `DeleteField` rewrite loop (lines 832-870):
`nVar` has already been decremented, and the loop reads `nVar` arrays
sequentially from the old step, re-emitting every one whose loop index
differs from `iField`.  (Record-aligned for the first step; on later
steps the source's sequential reads drift even further because one array
per step is left unread.) -/
def deleteFieldStep (iField nVarNew : Nat) (st : TimeStep) : TimeStep :=
  { date := st.date,
    arrays := (List.range nVarNew).filterMap
      (fun j => if j = iField then Option.none else st.arrays.get? j) }

/-- Modelled from the spec: `Selafin::write_header` re-emits the fixed
preamble, connectivity table and coordinate arrays from the in-memory
header (step 3 of the Rebuild Protocol); `steps` is the time-step
section the rebuild streams in behind it. -/
def write_header (h : Header) (title : String) (steps : List TimeStep) :
    SelFile :=
  { title := title,
    varNames := h.papszVariables.map trunc32,
    hasStartDate := h.hasStartDate,
    connectivity := h.panConnectivity,
    fileCoordX := h.coordX.map (fun x => x - h.originX),
    fileCoordY := h.coordY.map (fun y => y - h.originY),
    steps := steps }

/-- Function `MoveOverwrite` (lines 25-40): rewinds both handles, truncates the
destination and copies the source's bytes over it, making the
destination's content the source's. -/
def moveOverwrite (_dest src : SelFile) : SelFile := src

/-- Outcomes of the file-system and codec calls made during one run of
the Rebuild Protocol: whether the temp file opens, whether the header
write succeeds, and whether the timestamp round and each per-array round
of every step succeed. -/
structure RebuildOracle where
  tempOpenOk : Bool
  headerWriteOk : Bool
  dateOk : Nat → Bool
  arrOk : Nat → Nat → Bool

/-- The per-step streaming loop shared by the structural edits (e.g.
lines 615-663 for `ICreateFeature`): each step's timestamp is re-read
and re-emitted, then `nVarLoop` arrays are read and passed through the
edit `emit` (`none` drops the array, as `DeleteField` does).  Any failed
call aborts the whole loop with an error. -/
def runSteps (oracle : RebuildOracle) (nSteps nVarLoop : Nat)
    (readDate : Nat → Option ℚ) (readArr : Nat → Nat → Option (List ℚ))
    (emit : Nat → Nat → List ℚ → Option (List ℚ)) :
    Except Unit (List TimeStep) :=
  (List.range nSteps).foldlM (fun acc i =>
    if ¬ oracle.dateOk i then Except.error ()
    else
      match readDate i with
      | Option.none => Except.error ()
      | Option.some d =>
        ((List.range nVarLoop).foldlM (fun (arrs : List (List ℚ)) j =>
          if ¬ oracle.arrOk i j then Except.error ()
          else
            match readArr i j with
            | Option.none => Except.error ()
            | Option.some a =>
              match emit i j a with
              | Option.none => Except.ok arrs
              | Option.some w => Except.ok (arrs ++ [w])) []).map
          (fun arrs => acc ++ [{ date := d, arrays := arrs }])) []

/-- The Rebuild Protocol as run by every structural edit: open a temp
file, write the fresh header into it, stream the time steps through the
edit, and only on success copy the temp file over the original
(`MoveOverwrite`).  Every failure path returns the error having only
read the original file. -/
def rebuildProtocol (oracle : RebuildOracle) (orig : SelFile) (h : Header)
    (nVarLoop : Nat) (readDate : Nat → Option ℚ)
    (readArr : Nat → Nat → Option (List ℚ))
    (emit : Nat → Nat → List ℚ → Option (List ℚ)) : OGRErr × SelFile :=
  if ¬ oracle.tempOpenOk then (OGRErr.failure, orig)
  else if ¬ oracle.headerWriteOk then (OGRErr.failure, orig)
  else
    match runSteps oracle h.nSteps nVarLoop readDate readArr emit with
    | Except.error _ => (OGRErr.failure, orig)
    | Except.ok newSteps =>
      (OGRErr.none, moveOverwrite orig (write_header h orig.title newSteps))

/-- Sequential timestamp reads of a record-aligned old file. -/
def seqReadDate (steps : List TimeStep) : Nat → Option ℚ :=
  fun i => (steps.get? i).map TimeStep.date

/-- Sequential array reads of a record-aligned old file. -/
def seqReadArr (steps : List TimeStep) : Nat → Nat → Option (List ℚ) :=
  fun i j => (steps.get? i).bind (fun st => st.arrays.get? j)

/-- The inline edit of `ICreateFeature`'s rebuild (lines 640-652): each
array is reallocated to the new `nPoints` and its last slot is set to
the created feature's field value on the point view, or 0 on the element
view. -/
def icreateEdit (eType : SelafinTypeDef) (vals : List ℚ) (nPoints : Nat) :
    Nat → Nat → List ℚ → Option (List ℚ) :=
  fun _ j a =>
    Option.some (a.take (nPoints - 1) ++
      [if eType = SelafinTypeDef.points then vals.getD j 0 else 0])

/-- Rebuild phase of `ICreateFeature` (lines 600-671): the shared
protocol instantiated with sequential reads and the grow-by-one edit. -/
def icreateRebuild (oracle : RebuildOracle) (orig : SelFile) (h : Header)
    (eType : SelafinTypeDef) (vals : List ℚ) : OGRErr × SelFile :=
  rebuildProtocol oracle orig h h.nVar (seqReadDate orig.steps)
    (seqReadArr orig.steps) (icreateEdit eType vals h.nPoints)

/-- The record-level position of the old file's handle after the array
reads of step `i` of `ReorderFields`: right after array `panMap[nVar-1]`
of step `i`, which is the start of the next array record, or of step
`i + 1` when that was the step's last array. -/
def posAfterStep (panMap : List Nat) (nVar i : Nat) : Nat × Nat :=
  if panMap.getD (nVar - 1) 0 + 1 = nVar then (i + 1, 0)
  else (i, panMap.getD (nVar - 1) 0 + 2)

/-- Modelled from the spec: a sequential framed timestamp read at
record-level position `(step, record)` (record 0 is the timestamp
record, record `k + 1` is array `k`).  At an array record the three
framed reads succeed mid-file and yield the array's leading value
reinterpreted as the date (0 for an empty array); past the end of the
file the read fails. -/
def dateReadAt (steps : List TimeStep) (p : Nat × Nat) : Option ℚ :=
  (steps.get? p.1).map
    (fun st =>
      if p.2 = 0 then st.date else ((st.arrays.getD (p.2 - 1) []).headD 0))

/-- The timestamp emitted for step `i` by `ReorderFields`
(lines 911-925): read sequentially from wherever the previous step's
seek-based array reads left the old file's handle. -/
def reorderDates (panMap : List Nat) (nVar : Nat) (steps : List TimeStep)
    (i : Nat) : Option ℚ :=
  dateReadAt steps (if i = 0 then (0, 0) else posAfterStep panMap nVar (i - 1))

/-- The time-step section streamed by `OGRSelafinLayer::ReorderFields`
(lines 911-947) over the given step indices: each step re-emits the
sequentially read timestamp, then for each new position `j` seeks to
`getPosition(i, -1, panMap[j])`, reads that whole array from the old
file and writes its first `nPoints` values. -/
def reorderStepsAux (panMap : List Nat) (h : Header)
    (steps : List TimeStep) : List Nat → Option (List TimeStep)
  | [] => Option.some []
  | i :: rest =>
    (reorderDates panMap h.nVar steps i).bind fun d =>
    (reorderStepsAux panMap h steps rest).map fun tl =>
      { date := d,
        arrays := (List.range h.nVar).map
          (fun j => ((steps.getD i default).arrays.getD (panMap.getD j 0) []).take
            h.nPoints) } :: tl

/-- The full streamed time-step section of `ReorderFields`. -/
def reorderSteps (panMap : List Nat) (h : Header)
    (steps : List TimeStep) : Option (List TimeStep) :=
  reorderStepsAux panMap h steps (List.range h.nSteps)

/-- Concrete fixture: an empty mesh (no points, no elements, vertex
count per element still unset). -/
def exEmptyHeader : Header where
  nPoints := 0
  nElements := 0
  nPointsPerElement := 0
  nVar := 0
  nSteps := 0
  papszVariables := []
  panConnectivity := []
  coordX := []
  coordY := []
  originX := 0
  originY := 0
  hasStartDate := false

/-- Concrete fixture: a two-variable, one-point mesh with two time
steps. -/
def exHeader2 : Header where
  nPoints := 1
  nElements := 0
  nPointsPerElement := 0
  nVar := 2
  nSteps := 2
  papszVariables := ["A", "B"]
  panConnectivity := []
  coordX := [0]
  coordY := [0]
  originX := 0
  originY := 0
  hasStartDate := false

/-- Concrete fixture: the time-step section of `exHeader2`. -/
def exSteps2 : List TimeStep :=
  [{ date := 0, arrays := [[1], [2]] }, { date := 1, arrays := [[3], [4]] }]

/-- Concrete fixture: a file title. -/
def exTitle : String := "mesh"

/-- Concrete fixture: the file backing the triangle mesh. -/
def exFile : SelFile := write_header exHeader exTitle exSteps

/-- Concrete fixture: a one-point mesh (so the bounding box is
degenerate and the deduplication threshold is 0), with the vertex count
per element already fixed to 3. -/
def exDedupHeader : Header where
  nPoints := 1
  nElements := 0
  nPointsPerElement := 3
  nVar := 0
  nSteps := 0
  papszVariables := []
  panConnectivity := []
  coordX := [0]
  coordY := [0]
  originX := 0
  originY := 0
  hasStartDate := false

/-- Concrete fixture: an oracle whose first per-array round fails while
everything before it succeeds. -/
def exOracleFail : RebuildOracle where
  tempOpenOk := true
  headerWriteOk := true
  dateOk := fun _ => true
  arrOk := fun i j => !(i == 0 && j == 0)

theorem elemVerts_length (h : Header) (f : Nat) :
    (elemVerts h f).length = h.nPointsPerElement := by
  simp [elemVerts]

theorem elemVertexVals_length (h : Header) (steps : List TimeStep)
    (s f i : Nat) :
    (elemVertexVals h steps s f i).length = h.nPointsPerElement := by
  simp [elemVertexVals, elemVerts]

theorem elemVerts_lt_nPoints (h : Header) (steps : List TimeStep) (f : Nat)
    (hval : h.Valid steps) (hf : f < h.nElements) :
    ∀ p ∈ elemVerts h f, p < h.nPoints := by
  obtain ⟨-, hconn, hrange, -⟩ := hval
  intro p hp
  simp only [elemVerts, List.mem_map, List.mem_range] at hp
  obtain ⟨j, hj, rfl⟩ := hp
  have hidx : f * h.nPointsPerElement + j < h.panConnectivity.length := by
    rw [hconn]
    calc f * h.nPointsPerElement + j
        < f * h.nPointsPerElement + h.nPointsPerElement := by omega
      _ = (f + 1) * h.nPointsPerElement := by ring
      _ ≤ h.nElements * h.nPointsPerElement :=
          Nat.mul_le_mul_right _ (by omega)
  have hmem : h.panConnectivity.getD (f * h.nPointsPerElement + j) 0 ∈
      h.panConnectivity := by
    rw [List.getD_eq_getElem?_getD, List.getElem?_eq_getElem hidx]
    exact List.getElem_mem _
  obtain ⟨h1, h2⟩ := hrange _ hmem
  omega

theorem readPointVar_valid (h : Header) (steps : List TimeStep) (s i p : Nat)
    (hval : h.Valid steps) (hs : s < h.nSteps) (hi : i < h.nVar)
    (hp : p < h.nPoints) :
    readPointVar steps s i p =
      Option.some (((steps.getD s default).arrays.getD i []).getD p 0) := by
  obtain ⟨-, -, -, -, -, hlen, hst⟩ := hval
  have hs' : s < steps.length := by omega
  have hstep : steps.getD s default = steps[s] := by
    rw [List.getD_eq_getElem?_getD, List.getElem?_eq_getElem hs']
    rfl
  obtain ⟨harr, hall⟩ := hst steps[s] (List.getElem_mem hs')
  have hi' : i < steps[s].arrays.length := by omega
  have harrD : steps[s].arrays.getD i [] = steps[s].arrays[i] := by
    rw [List.getD_eq_getElem?_getD, List.getElem?_eq_getElem hi']
    rfl
  have hp' : p < steps[s].arrays[i].length := by
    rw [hall steps[s].arrays[i] (List.getElem_mem hi')]
    exact hp
  unfold readPointVar
  rw [List.get?_eq_getElem?, List.getElem?_eq_getElem hs']
  simp only [Option.bind_some, Option.some_bind]
  rw [List.get?_eq_getElem?, List.getElem?_eq_getElem hi']
  simp only [Option.some_bind]
  rw [List.get?_eq_getElem?, List.getElem?_eq_getElem hp']
  rw [hstep, harrD, List.getD_eq_getElem?_getD, List.getElem?_eq_getElem hp']
  rfl

/-- Claim C6: `GetFeature` returns no feature exactly when the FID is
negative or at least the view's row count (`nPoints` for the point view,
`nElements` for the element view); for an in-range FID it returns a
feature carrying that FID. -/
theorem getFeature_fid_range (h : Header) (steps : List TimeStep)
    (eType : SelafinTypeDef) (s : Nat) (nFID : Int) :
    ((getFeature h steps eType s nFID).isSome ↔
      0 ≤ nFID ∧ nFID < (viewCount h eType : Int)) ∧
    (∀ feat, getFeature h steps eType s nFID = Option.some feat →
      feat.fid = nFID) := by
  constructor
  · cases eType <;> simp only [getFeature, viewCount] <;> split_ifs <;>
      simp_all
  · intro feat hf
    cases eType <;> simp only [getFeature] at hf <;> split_ifs at hf <;>
      first
        | exact Option.noConfusion hf
        | (injection hf with h2; rw [← h2])

/-- Witness for C6 on the concrete triangle mesh: FID 2 is accepted on
the point view, while the same FID 2 is rejected on the element view
(only element 0 exists). -/
theorem getFeature_fid_range_check :
    (getFeature exHeader exSteps SelafinTypeDef.points 0 2).isSome = true ∧
    (getFeature exHeader exSteps SelafinTypeDef.elements 0 2).isSome = false := by
  constructor
  · exact (getFeature_fid_range exHeader exSteps SelafinTypeDef.points 0 2).1.mpr
      (by decide)
  · rw [Bool.eq_false_iff]
    intro hsome
    have h2 := (getFeature_fid_range exHeader exSteps
      SelafinTypeDef.elements 0 2).1.mp hsome
    revert h2
    decide

/-- Claim C1: on the element view, a feature read with a valid FID on a
valid store with a positive vertex count per element returns, for every
variable, exactly the arithmetic mean of that variable's per-point values
over the element's vertices at the current time step. -/
theorem element_read_fields_are_vertex_means (h : Header)
    (steps : List TimeStep) (s : Nat) (nFID : Int) (i : Nat)
    (hval : h.Valid steps) (hs : s < h.nSteps) (h0 : 0 ≤ nFID)
    (hfid : nFID < (h.nElements : Int)) (hppe : 0 < h.nPointsPerElement)
    (hi : i < h.nVar) :
    ∃ feat, getFeature h steps SelafinTypeDef.elements s nFID = Option.some feat ∧
      feat.fields.get? i =
        Option.some (Option.some (meanQ (elemVertexVals h steps s nFID.toNat i))) := by
  have hnot0 : ¬ nFID < 0 := by omega
  have hnotel : ¬ (h.nElements : Int) ≤ nFID := by omega
  have hf : nFID.toNat < h.nElements := by omega
  have hsum : (elemVerts h nFID.toNat).map
      (fun p => (readPointVar steps s i p).getD 0) =
      elemVertexVals h steps s nFID.toNat i := by
    unfold elemVertexVals
    apply List.map_congr_left
    intro p hp
    rw [readPointVar_valid h steps s i p hval hs hi
      (elemVerts_lt_nPoints h steps nFID.toNat hval hf p hp)]
    rfl
  simp only [getFeature, if_neg hnot0, if_neg hnotel]
  refine ⟨_, rfl, ?_⟩
  simp only [if_neg hppe.ne', List.map_map, List.get?_eq_getElem?,
    List.getElem?_map, List.getElem?_range hi, Option.map_some',
    Function.comp_apply]
  rw [hsum]
  unfold meanQ
  rw [elemVertexVals_length]

/-- Witness for C1 on the triangle fixture: vertex values 1.0, 2.0 and
6.0 at variable "H" give element value 3.0. -/
theorem element_read_mean_triangle_check :
    ∃ feat, getFeature exHeader exSteps SelafinTypeDef.elements 0 0 =
        Option.some feat ∧
      feat.fields.get? 0 = Option.some (Option.some 3) := by
  obtain ⟨feat, hfeat, hfield⟩ := element_read_fields_are_vertex_means
    exHeader exSteps 0 0 0 (by decide) (by decide) (by decide) (by decide)
    (by decide) (by decide)
  refine ⟨feat, hfeat, ?_⟩
  rw [hfield]
  have hv : elemVertexVals exHeader exSteps 0 (Int.toNat 0) 0 = [1, 2, 6] := by
    decide
  rw [hv]
  norm_num [meanQ, List.sum_cons, List.sum_nil]

/-- Claim C10: `SetNextByIndex` accepts an index exactly when it lies in
`[0, nPoints)`, on both views; in particular the element view also
validates against the point count, so on an element view it accepts
every index in `[nElements, nPoints)`. -/
theorem setNextByIndex_validates_against_point_count (h : Header)
    (eType : SelafinTypeDef) (cur nIndex : Int) :
    ((setNextByIndex h eType cur nIndex).1 = OGRErr.none ↔
      0 ≤ nIndex ∧ nIndex < (h.nPoints : Int)) ∧
    (eType = SelafinTypeDef.elements → (h.nElements : Int) ≤ nIndex →
      nIndex < (h.nPoints : Int) →
      (setNextByIndex h eType cur nIndex).1 = OGRErr.none) := by
  constructor
  · unfold setNextByIndex
    split_ifs with hc
    · simp only [false_iff]
      omega
    · simp only [true_iff]
      omega
  · intro _ hlo hhi
    unfold setNextByIndex
    rw [if_neg (by omega)]

/-- Witness for C10 on the triangle fixture (3 points, 1 element), taken
on the element view: index 2 lies beyond the element count but below the
point count and is accepted. -/
theorem setNextByIndex_element_view_check :
    (setNextByIndex exHeader SelafinTypeDef.elements (-1) 2).1 =
      OGRErr.none := by
  exact (setNextByIndex_validates_against_point_count exHeader
    SelafinTypeDef.elements (-1) 2).2 rfl (by decide) (by decide)

/-- Claim C5: the point-view `ISetFeature` fails on a feature whose
geometry is missing or not of point type, and leaves both the in-memory
store and the file contents unchanged. -/
theorem point_write_geometry_mismatch_no_change (h : Header) (f : SelFile)
    (s : Nat) (nFID : Int) (geom : Option Geometry) (vals : List ℚ)
    (hgeom : isPointGeom geom = false) :
    isetFeaturePoint h f s nFID geom vals = (OGRErr.failure, h, f) := by
  match geom with
  | Option.none => rfl
  | Option.some (Geometry.polygon r) => rfl
  | Option.some (Geometry.point x y) => exact absurd hgeom (by simp [isPointGeom])

/-- Witness for C5: writing a polygon-geometry feature to the point view
of the triangle fixture fails and changes nothing. -/
theorem point_write_polygon_rejected_check :
    isetFeaturePoint exHeader exFile 0 0
      (Option.some (Geometry.polygon [(0, 0), (1, 0), (0, 1), (0, 0)])) [9] =
      (OGRErr.failure, exHeader, exFile) := by
  exact point_write_geometry_mismatch_no_change exHeader exFile 0 0
    (Option.some (Geometry.polygon [(0, 0), (1, 0), (0, 1), (0, 0)])) [9]
    (by decide)

/-- Claim C9: renaming a field through `AlterFieldDefn` with a
double-precision field definition succeeds and rewrites only the
32-character name slot, in memory and in the file; the counts,
connectivity table, coordinate arrays and every time-step record are
untouched and no rebuild happens (the whole time-step section is
returned as is). -/
theorem alter_field_rename_in_place (h : Header) (f : SelFile)
    (iField : Nat) (newName : String) :
    alterFieldDefn h f iField newName OGRFieldType.oftReal =
      (OGRErr.none,
        { h with papszVariables :=
            h.papszVariables.set iField (trunc32 newName) },
        { f with varNames := f.varNames.set iField (trunc32 newName) }) := by
  rfl

/-- Claim C2, evaluated at the failing input: a mesh with two variables
and one single-point time step (arrays `[5]` and `[7]`).  `DeleteField 0`
re-emits a step with no arrays at all — the surviving variable's array
`[7]` is dropped instead of being kept, because the rewrite loop reads
only the already-decremented `nVar` arrays and skips writing index
`iField`. -/
theorem deleteField_drops_surviving_array :
    deleteFieldStep 0 1 { date := 0, arrays := [[5], [7]] } =
      { date := 0, arrays := [] } ∧
    ({ date := (0 : ℚ), arrays := ([] : List (List ℚ)) } : TimeStep) ≠
      { date := 0, arrays := [[7]] } := by
  constructor
  · rfl
  · decide

theorem reorderStepsAux_sound (panMap : List Nat) (h : Header)
    (steps : List TimeStep) (idxs : List Nat)
    (hlen : steps.length = h.nSteps) (hidx : ∀ i ∈ idxs, i < h.nSteps) :
    ∃ out, reorderStepsAux panMap h steps idxs = Option.some out ∧
      out.length = idxs.length ∧
      (∀ k, k < idxs.length →
        (out.getD k default).arrays = (List.range h.nVar).map
          (fun j => ((steps.getD (idxs.getD k 0) default).arrays.getD
            (panMap.getD j 0) []).take h.nPoints)) := by
  induction idxs with
  | nil => exact ⟨[], rfl, rfl, fun k hk => absurd hk (by simp)⟩
  | cons i rest ih =>
    have hi : i < h.nSteps := hidx i (List.mem_cons_self i rest)
    have hpos : (if i = 0 then ((0 : Nat), (0 : Nat))
        else posAfterStep panMap h.nVar (i - 1)).1 < steps.length := by
      rw [hlen]
      by_cases h0 : i = 0
      · rw [if_pos h0]
        omega
      · rw [if_neg h0]
        unfold posAfterStep
        split_ifs <;> simp <;> omega
    obtain ⟨d, hd⟩ : ∃ d, reorderDates panMap h.nVar steps i =
        Option.some d := by
      unfold reorderDates dateReadAt
      rw [List.get?_eq_getElem?, List.getElem?_eq_getElem hpos]
      exact ⟨_, rfl⟩
    obtain ⟨out, hout, houtlen, hprop⟩ :=
      ih (fun j hj => hidx j (List.mem_cons_of_mem _ hj))
    refine ⟨({ date := d, arrays := (List.range h.nVar).map (fun j => ((steps.getD i default).arrays.getD (panMap.getD j 0) []).take h.nPoints) } : TimeStep) :: out, ?_, ?_, ?_⟩
    · unfold reorderStepsAux
      rw [hd, hout]
      rfl
    · simp [houtlen]
    · intro k hk
      cases k with
      | zero =>
        simp only [List.getD_cons_zero]
      | succ k =>
        simp only [List.getD_cons_succ]
        exact hprop k (by simpa using hk)

/-- Claim C8: after `ReorderFields` with map `panMap` on a valid store,
the streamed time-step section has, for every time step `i` and every
new field position `j`, exactly the old file's step-`i` array of
variable `panMap[j]`, with all per-point values unaltered. -/
theorem reorder_fields_permutes_arrays (h : Header) (steps : List TimeStep)
    (panMap : List Nat) (hval : h.Valid steps)
    (hmaplen : panMap.length = h.nVar) (hmap : ∀ m ∈ panMap, m < h.nVar) :
    ∃ out, reorderSteps panMap h steps = Option.some out ∧
      out.length = h.nSteps ∧
      (∀ i j, i < h.nSteps → j < h.nVar →
        (out.getD i default).arrays.get? j =
          (steps.getD i default).arrays.get? (panMap.getD j 0)) := by
  obtain ⟨-, -, -, -, -, hlen, hst⟩ := hval
  obtain ⟨out, hout, hlen2, hprop⟩ := reorderStepsAux_sound panMap h steps
    (List.range h.nSteps) hlen (fun i hi => List.mem_range.mp hi)
  refine ⟨out, hout, by simpa using hlen2, ?_⟩
  intro i j hi hj
  have hk := hprop i (by simpa using hi)
  rw [show (List.range h.nSteps).getD i 0 = i from by
    rw [List.getD_eq_getElem?_getD, List.getElem?_range hi]; rfl] at hk
  have hi' : i < steps.length := by omega
  have hstep : steps.getD i default = steps[i] := by
    rw [List.getD_eq_getElem?_getD, List.getElem?_eq_getElem hi']
    rfl
  have hjm : j < panMap.length := by omega
  have hm : panMap.getD j 0 < h.nVar := by
    apply hmap
    rw [show panMap.getD j 0 = panMap[j] from by
      rw [List.getD_eq_getElem?_getD, List.getElem?_eq_getElem hjm]; rfl]
    exact List.getElem_mem hjm
  obtain ⟨harrlen, hallarr⟩ := hst steps[i] (List.getElem_mem hi')
  have hm' : panMap.getD j 0 < steps[i].arrays.length := by omega
  have harr : steps[i].arrays.getD (panMap.getD j 0) [] =
      steps[i].arrays[panMap.getD j 0] := by
    rw [List.getD_eq_getElem?_getD, List.getElem?_eq_getElem hm']
    rfl
  rw [hk, hstep, List.get?_eq_getElem?, List.getElem?_map,
    List.getElem?_range hj, Option.map_some', harr,
    List.take_of_length_le
      (le_of_eq (hallarr steps[i].arrays[panMap.getD j 0]
        (List.getElem_mem hm'))),
    List.get?_eq_getElem?, List.getElem?_eq_getElem hm']

/-- Witness for C8 on the two-variable, two-step fixture with
permutation `[1, 0]`: both time steps have their two per-point arrays
swapped with values intact. -/
theorem reorder_fields_swap_check :
    ∃ out, reorderSteps [1, 0] exHeader2 exSteps2 = Option.some out ∧
      (out.getD 0 default).arrays.get? 0 = Option.some [2] ∧
      (out.getD 0 default).arrays.get? 1 = Option.some [1] ∧
      (out.getD 1 default).arrays.get? 0 = Option.some [4] ∧
      (out.getD 1 default).arrays.get? 1 = Option.some [3] := by
  obtain ⟨out, hout, -, hprop⟩ := reorder_fields_permutes_arrays exHeader2
    exSteps2 [1, 0] (by decide) (by decide) (by decide)
  refine ⟨out, hout, ?_, ?_, ?_, ?_⟩
  · rw [hprop 0 0 (by decide) (by decide)]
    decide
  · rw [hprop 0 1 (by decide) (by decide)]
    decide
  · rw [hprop 1 0 (by decide) (by decide)]
    decide
  · rw [hprop 1 1 (by decide) (by decide)]
    decide

/-- Claim C7: a structural edit's rebuild returns an error exactly when
a pre-copy call fails (the temp-file open, the header write, or a
read/write round while streaming the time steps), and whenever it
returns the error, the original file's contents are unchanged (the
pre-copy phase only reads them; every write lands in the temp file). -/
theorem rebuild_pre_copy_failure_preserves_original
    (oracle : RebuildOracle) (orig : SelFile) (h : Header) (nVarLoop : Nat)
    (readDate : Nat → Option ℚ) (readArr : Nat → Nat → Option (List ℚ))
    (emit : Nat → Nat → List ℚ → Option (List ℚ)) :
    ((rebuildProtocol oracle orig h nVarLoop readDate readArr emit).1 =
        OGRErr.failure ↔
      (¬ oracle.tempOpenOk ∨ ¬ oracle.headerWriteOk ∨
        runSteps oracle h.nSteps nVarLoop readDate readArr emit =
          Except.error ())) ∧
    ((rebuildProtocol oracle orig h nVarLoop readDate readArr emit).1 =
        OGRErr.failure →
      (rebuildProtocol oracle orig h nVarLoop readDate readArr emit).2 =
        orig) := by
  unfold rebuildProtocol
  by_cases h1 : oracle.tempOpenOk
  · rw [if_neg (not_not_intro h1)]
    by_cases h2 : oracle.headerWriteOk
    · rw [if_neg (not_not_intro h2)]
      cases hrun : runSteps oracle h.nSteps nVarLoop readDate readArr emit with
      | error e =>
        cases e
        exact ⟨by simp [hrun], fun _ => rfl⟩
      | ok newSteps =>
        constructor
        · simp [h1, h2, hrun]
        · intro hcon
          simp at hcon
    · rw [if_pos h2]
      exact ⟨by simp [h2], fun _ => rfl⟩
  · rw [if_pos h1]
    exact ⟨by simp [h1], fun _ => rfl⟩

theorem resolveVerts_fst_ppe (h : Header)
    (items : List ((ℚ × ℚ) × Option Nat)) :
    (resolveVerts h items).1.nPointsPerElement = h.nPointsPerElement := by
  induction items generalizing h with
  | nil => rfl
  | cons it rest ih =>
    cases hit : it.2 <;> simp [resolveVerts, hit, ih, addPoint]

theorem resolveVerts_fst_nElements (h : Header)
    (items : List ((ℚ × ℚ) × Option Nat)) :
    (resolveVerts h items).1.nElements = h.nElements := by
  induction items generalizing h with
  | nil => rfl
  | cons it rest ih =>
    cases hit : it.2 <;> simp [resolveVerts, hit, ih, addPoint]

theorem resolveVerts_fst_conn (h : Header)
    (items : List ((ℚ × ℚ) × Option Nat)) :
    (resolveVerts h items).1.panConnectivity = h.panConnectivity := by
  induction items generalizing h with
  | nil => rfl
  | cons it rest ih =>
    cases hit : it.2 <;> simp [resolveVerts, hit, ih, addPoint]

theorem zip_self_map {α β : Type} (l : List α) (f : α → β) :
    l.zip (l.map f) = l.map (fun a => (a, f a)) := by
  induction l with
  | nil => rfl
  | cons a rest ih => simp [ih]

theorem resolveVerts_fst_nPoints (h : Header)
    (items : List ((ℚ × ℚ) × Option Nat)) :
    (resolveVerts h items).1.nPoints =
      h.nPoints + items.countP (fun it => it.2.isNone) := by
  induction items generalizing h with
  | nil => simp [resolveVerts]
  | cons it rest ih =>
    cases hit : it.2 with
    | some k =>
      simp [resolveVerts, hit, ih, List.countP_cons]
    | none =>
      simp [resolveVerts, hit, ih, addPoint, List.countP_cons]
      omega

theorem resolveVerts_snd_get (h : Header)
    (items : List ((ℚ × ℚ) × Option Nat)) (k : Nat)
    (it : (ℚ × ℚ) × Option Nat) (hk : items.get? k = Option.some it) :
    ∃ j, (resolveVerts h items).2.get? k = Option.some j ∧
      (it.2 = Option.some j ∨ (it.2 = Option.none ∧ h.nPoints ≤ j)) := by
  induction items generalizing h k with
  | nil => simp at hk
  | cons it0 rest ih =>
    cases k with
    | zero =>
      rw [List.get?_cons_zero] at hk
      obtain rfl : it0 = it := Option.some.inj hk
      cases hit : it0.2 with
      | some m =>
        refine ⟨m, ?_, Or.inl rfl⟩
        simp only [resolveVerts, hit]
        rw [List.get?_cons_zero]
      | none =>
        refine ⟨h.nPoints, ?_, Or.inr ⟨rfl, le_refl _⟩⟩
        simp only [resolveVerts, hit]
        rw [List.get?_cons_zero]
    | succ k =>
      rw [List.get?_cons_succ] at hk
      cases hit : it0.2 with
      | some m =>
        obtain ⟨j, hj, hcase⟩ := ih h k hk
        refine ⟨j, ?_, hcase⟩
        simp only [resolveVerts, hit]
        rw [List.get?_cons_succ]
        exact hj
      | none =>
        obtain ⟨j, hj, hcase⟩ := ih (addPoint h it0.1.1 it0.1.2) k hk
        refine ⟨j, ?_, ?_⟩
        · simp only [resolveVerts, hit]
          rw [List.get?_cons_succ]
          exact hj
        · cases hcase with
          | inl hl => exact Or.inl hl
          | inr hr =>
            refine Or.inr ⟨hr.1, ?_⟩
            have hadd : (addPoint h it0.1.1 it0.1.2).nPoints = h.nPoints + 1 :=
              rfl
            omega

theorem getClosestPoint_some_spec (h : Header) (x y dMax : ℚ) (j : Nat)
    (hfind : getClosestPoint h x y dMax = Option.some j) :
    j < h.nPoints ∧
      sqDist (h.coordX.getD j 0) (h.coordY.getD j 0) x y ≤ dMax := by
  unfold getClosestPoint at hfind
  constructor
  · have := List.mem_of_find?_eq_some hfind
    simpa using this
  · have := List.find?_some hfind
    exact of_decide_eq_true this

theorem getClosestPoint_isNone_eq (h : Header) (x y : ℚ) :
    (getClosestPoint h x y (dedupMaxDistSq h)).isNone = !(nearExists h x y) := by
  cases hfind : getClosestPoint h x y (dedupMaxDistSq h) with
  | some j =>
    unfold getClosestPoint at hfind
    have hmem := List.mem_of_find?_eq_some hfind
    have hp := List.find?_some hfind
    have hany : nearExists h x y = true := by
      unfold nearExists
      rw [List.any_eq_true]
      exact ⟨j, hmem, hp⟩
    simp [hany]
  | none =>
    unfold getClosestPoint at hfind
    rw [List.find?_eq_none] at hfind
    have hany : nearExists h x y = false := by
      unfold nearExists
      rw [← Bool.not_eq_true, List.any_eq_true]
      rintro ⟨j, hmem, hp⟩
      exact absurd hp (by simpa using hfind j hmem)
    simp [hany]

/-- Claim C3: during element creation on a mesh with at least one point,
every ring vertex within the squared threshold
`((bboxWidth / sqrt nPoints) / 1000)^2` of some existing point reuses an
existing point's index (the first one within the threshold) and adds no
point, while every vertex with no point within the threshold adds
exactly one new point: the final point count grows by exactly the number
of unmatched vertices, and the new connectivity row records, 1-based, an
existing index within the threshold for each matched vertex and a fresh
index for each unmatched one. -/
theorem create_element_point_dedup (h : Header) (ring : List (ℚ × ℚ))
    (hppe : h.nPointsPerElement ≠ 0)
    (hlen : ring.length = h.nPointsPerElement + 1) (hpts : 0 < h.nPoints) :
    ∃ h1, createElementMem h ring = Option.some h1 ∧
      h1.nPoints = h.nPoints + (ring.take h.nPointsPerElement).countP
        (fun v => !(nearExists h v.1 v.2)) ∧
      (∀ k v, (ring.take h.nPointsPerElement).get? k = Option.some v →
        ∃ j, h1.panConnectivity.get? (h.panConnectivity.length + k) =
            Option.some (j + 1) ∧
          (nearExists h v.1 v.2 = true →
            j < h.nPoints ∧
              sqDist (h.coordX.getD j 0) (h.coordY.getD j 0) v.1 v.2 ≤
                dedupMaxDistSq h) ∧
          (nearExists h v.1 v.2 = false → h.nPoints ≤ j)) := by
  unfold createElementMem
  rw [if_neg hppe, if_neg (not_not_intro hlen)]
  simp only [Option.some_bind, if_pos hpts, zip_self_map]
  set r := resolveVerts h ((ring.take h.nPointsPerElement).map
    (fun a => (a, getClosestPoint h a.1 a.2 (dedupMaxDistSq h)))) with hr
  refine ⟨_, rfl, ?_, ?_⟩
  · show r.1.nPoints = _
    rw [hr, resolveVerts_fst_nPoints, List.countP_map]
    congr 1
    apply List.countP_congr
    intro a _
    have hcomp : ((fun it : (ℚ × ℚ) × Option Nat => it.2.isNone) ∘
        (fun a : ℚ × ℚ => (a, getClosestPoint h a.1 a.2 (dedupMaxDistSq h)))) a =
        (getClosestPoint h a.1 a.2 (dedupMaxDistSq h)).isNone := rfl
    rw [hcomp, getClosestPoint_isNone_eq]
  · intro k v hkv
    have hik : ((ring.take h.nPointsPerElement).map
        (fun a => (a, getClosestPoint h a.1 a.2 (dedupMaxDistSq h)))).get? k =
        Option.some (v, getClosestPoint h v.1 v.2 (dedupMaxDistSq h)) := by
      rw [List.get?_eq_getElem?, List.getElem?_map, ← List.get?_eq_getElem?,
        hkv]
      rfl
    obtain ⟨j, hj, hcase⟩ := resolveVerts_snd_get h _ k _ hik
    rw [← hr] at hj
    refine ⟨j, ?_, ?_, ?_⟩
    · show (r.1.panConnectivity ++ r.2.map (fun m => m + 1)).get?
        (h.panConnectivity.length + k) = Option.some (j + 1)
      have hc : r.1.panConnectivity = h.panConnectivity := by
        rw [hr]
        exact resolveVerts_fst_conn _ _
      rw [hc, List.get?_eq_getElem?,
        List.getElem?_append_right (Nat.le_add_right _ _),
        Nat.add_sub_cancel_left, List.getElem?_map, ← List.get?_eq_getElem?,
        hj]
      rfl
    · intro htrue
      cases hcase with
      | inl hl =>
        have hl2 : getClosestPoint h v.1 v.2 (dedupMaxDistSq h) =
            Option.some j := hl
        exact getClosestPoint_some_spec h v.1 v.2 _ j hl2
      | inr hr2 =>
        exfalso
        have hn : getClosestPoint h v.1 v.2 (dedupMaxDistSq h) =
            Option.none := hr2.1
        have hiso := getClosestPoint_isNone_eq h v.1 v.2
        rw [hn, htrue] at hiso
        simp at hiso
    · intro hfalse
      cases hcase with
      | inl hl =>
        exfalso
        have hl2 : getClosestPoint h v.1 v.2 (dedupMaxDistSq h) =
            Option.some j := hl
        have hiso := getClosestPoint_isNone_eq h v.1 v.2
        rw [hl2, hfalse] at hiso
        simp at hiso
      | inr hr2 => exact hr2.2

/-- Witness for C3 on the one-point fixture, whose threshold is 0: ring
vertex (0,0) coincides with the existing point and is reused, while
vertices (1,0) and (2,0) are beyond the threshold and add exactly one
point each, giving a final point count of 3. -/
theorem create_element_dedup_check :
    ∃ h1, createElementMem exDedupHeader [(0, 0), (1, 0), (2, 0), (0, 0)] =
        Option.some h1 ∧ h1.nPoints = 3 := by
  obtain ⟨h1, hcr, hcount, -⟩ := create_element_point_dedup exDedupHeader
    [(0, 0), (1, 0), (2, 0), (0, 0)] (by decide) (by decide) (by decide)
  refine ⟨h1, hcr, ?_⟩
  rw [hcount]
  have hT : dedupMaxDistSq exDedupHeader = 0 := by
    norm_num [dedupMaxDistSq, bboxWidth, bboxMaxX, bboxMinX, exDedupHeader]
  have hn0 : nearExists exDedupHeader 0 0 = true := by
    simp only [nearExists, hT]
    norm_num [exDedupHeader, sqDist, List.range_succ]
  have hn1 : nearExists exDedupHeader 1 0 = false := by
    simp only [nearExists, hT]
    norm_num [exDedupHeader, sqDist, List.range_succ]
  have hn2 : nearExists exDedupHeader 2 0 = false := by
    simp only [nearExists, hT]
    norm_num [exDedupHeader, sqDist, List.range_succ]
  show (1 : Nat) + _ = 3
  rw [show ((([(0, 0), (1, 0), (2, 0), (0, 0)] : List (ℚ × ℚ)).take
      exDedupHeader.nPointsPerElement)) = [(0, 0), (1, 0), (2, 0)] from rfl]
  rw [List.countP_cons, List.countP_cons, List.countP_cons, List.countP_nil]
  simp [hn0, hn1, hn2]

/-- Claim C4: on a file whose vertex count per element is still unset,
creating an element from a closed ring with fewer than 4 ring points
fails; with at least 4 it succeeds and fixes `nPointsPerElement` to the
ring's point count minus one, and afterwards a create whose ring does
not have exactly `nPointsPerElement + 1` points fails. -/
theorem create_element_fixes_vertex_count (h : Header)
    (ring ring2 : List (ℚ × ℚ)) (hppe0 : h.nPointsPerElement = 0) :
    (ring.length < 4 → createElementMem h ring = Option.none) ∧
    (4 ≤ ring.length →
      ∃ h1, createElementMem h ring = Option.some h1 ∧
        h1.nPointsPerElement = ring.length - 1 ∧
        (ring2.length ≠ h1.nPointsPerElement + 1 →
          createElementMem h1 ring2 = Option.none)) := by
  constructor
  · intro hlt
    unfold createElementMem
    rw [if_pos hppe0, if_pos hlt]
    rfl
  · intro hge
    have hsome : ∃ h1, createElementMem h ring = Option.some h1 := by
      unfold createElementMem
      rw [if_pos hppe0, if_neg (by omega)]
      exact ⟨_, rfl⟩
    obtain ⟨h1, hcr⟩ := hsome
    have hppe1 : h1.nPointsPerElement = ring.length - 1 := by
      unfold createElementMem at hcr
      rw [if_pos hppe0, if_neg (by omega)] at hcr
      simp only [Option.some_bind] at hcr
      rw [← Option.some.inj hcr]
      simp [resolveVerts_fst_ppe]
    refine ⟨h1, hcr, hppe1, fun hne => ?_⟩
    unfold createElementMem
    rw [if_neg (by rw [hppe1]; omega), if_pos hne]
    rfl

/-- Witness for C4 on the empty mesh: a 3-point closed ring (2 distinct
vertices) is rejected; a 4-point closed ring fixes the vertex count per
element to 3, after which a 5-point ring is rejected. -/
theorem create_element_vertex_count_check :
    createElementMem exEmptyHeader [(0, 0), (1, 0), (0, 0)] = Option.none ∧
    ∃ h1, createElementMem exEmptyHeader [(0, 0), (1, 0), (0, 1), (0, 0)] =
        Option.some h1 ∧
      h1.nPointsPerElement = 3 ∧
      createElementMem h1 [(0, 0), (1, 0), (1, 1), (0, 1), (0, 0)] =
        Option.none := by
  constructor
  · exact (create_element_fixes_vertex_count exEmptyHeader
      [(0, 0), (1, 0), (0, 0)] [] rfl).1 (by decide)
  · obtain ⟨h1, hcr, hppe, hnext⟩ := (create_element_fixes_vertex_count
      exEmptyHeader [(0, 0), (1, 0), (0, 1), (0, 0)]
      [(0, 0), (1, 0), (1, 1), (0, 1), (0, 0)] rfl).2 (by decide)
    exact ⟨h1, hcr, hppe, hnext (by rw [hppe]; decide)⟩

/-- Witness for C7: with the temp file opening and the header write
succeeding but the very first per-array round failing, the rebuild run
by `ICreateFeature` on the triangle fixture returns the failure and the
original file is unchanged. -/
theorem rebuild_midstream_failure_check :
    (icreateRebuild exOracleFail exFile exHeader SelafinTypeDef.points [9]).1 =
      OGRErr.failure ∧
    (icreateRebuild exOracleFail exFile exHeader SelafinTypeDef.points [9]).2 =
      exFile := by
  constructor
  · rfl
  · exact (rebuild_pre_copy_failure_preserves_original exOracleFail exFile
      exHeader exHeader.nVar (seqReadDate exFile.steps)
      (seqReadArr exFile.steps)
      (icreateEdit SelafinTypeDef.points [9] exHeader.nPoints)).2 rfl

end Selafin
